import Mathlib

set_option maxRecDepth 100000

/-!
Verification development for the MEGAPhone voice-broadcast frontend.

The definitions below are a shallow embedding of the TypeScript sources:

* `frontend/src/utils/audio.ts` — `AudioPlayer` (jitter buffer: `processBatch`,
  `processFrames`) and `OpusEncoder` (`start`, `stop`, `processAudioChunks`);
* the second committed revision of `utils/audio.ts` whose `processFrames`
  additionally contains the packet-loss gap-skip block (`processFramesLossy`);
* `frontend/src/utils/blockchain.ts` — `sendAudioBatch` (live submit path),
  the deprecated retrying `sendRawTransaction`, `encodeABISendBatch`, and the
  hex-payload decoding inside `processLog` of `listenToAudioBatches`;
* `contracts/src/OnchainBroadcast.sol` — `sendBatch` (calldata in, `Batch`
  event out);
* `frontend/src/pages/Listener.tsx` — `handleAudioBatch` channel guard.

JavaScript `Map<number, Uint8Array>` is modelled as an association list in
insertion order with unique keys; `Uint8Array` as `List Nat` of byte values;
JavaScript numbers that the code only ever uses as non-negative integers as
`Nat`, except where the source computes a possibly negative difference, which
is modelled in `Int`.
-/

namespace MegaPhone

/-- One audio frame: byte values of a `Uint8Array`. -/
abbrev Frame := List Nat

/-- The jitter-buffer `frameMap : Map<number, Uint8Array>` in insertion order. -/
abbrev FrameMap := List (Nat × Frame)

/-- Keys of the map, in insertion order (`Array.from(map.keys())`). -/
def keyList (m : FrameMap) : List Nat := m.map Prod.fst

/-- `map.has(k)`. -/
def hasKey (m : FrameMap) (k : Nat) : Bool := m.any (fun kv => kv.1 == k)

/-- `map.delete(k)`: removes the entry with key `k` (keys are unique, so
filtering all matches is the same operation). -/
def eraseKey (m : FrameMap) (k : Nat) : FrameMap := m.filter (fun kv => !(kv.1 == k))

/-- The insert used by `processBatch`: `if (!map.has(seq)) map.set(seq, data)`.
`Map.set` on an absent key appends in insertion order. -/
def insertIfAbsent (m : FrameMap) (k : Nat) (v : Frame) : FrameMap :=
  if hasKey m k then m else m ++ [(k, v)]

/-- `Array.from(this.frameMap.keys()).sort((a, b) => a - b)`: the buffered
sequence numbers in ascending numeric order. -/
def sortedSeqList (m : FrameMap) : List Nat := List.insertionSort (· ≤ ·) (keyList m)

/-- Result of the contiguous `while (this.frameMap.has(this.expectedSequence))`
drain loop of `processFrames`: the remaining map, the final
`expectedSequence`, the final `packetsPlayed`, and the sequence numbers
handed to `playAudioFrame` in emission order. -/
structure DrainResult where
  map : FrameMap
  expected : Nat
  played : Nat
  emitted : List Nat
deriving DecidableEq

/-- Fuel-indexed unfolding of the drain loop. Each successful iteration
removes the entry at `expectedSequence`, so `m.length` fuel always suffices
(`drainLoop` below). -/
def drainGo : Nat → FrameMap → Nat → Nat → DrainResult
  | 0, m, e, p => ⟨m, e, p, []⟩
  | fuel + 1, m, e, p =>
    if hasKey m e then
      let r := drainGo fuel (eraseKey m e) (e + 1) (p + 1)
      ⟨r.map, r.expected, r.played, e :: r.emitted⟩
    else ⟨m, e, p, []⟩

/-- The drain loop of `processFrames`, entered with the post-bootstrap
`expectedSequence` and the current `packetsPlayed`. -/
def drainLoop (m : FrameMap) (e p : Nat) : DrainResult := drainGo m.length m e p

/-- The trailing `availableSeqs.forEach` cleanup of `processFrames`: for every
sequence in the pre-drain snapshot, delete it when it is older than
`expectedSequence - 100` (computed in JavaScript arithmetic, hence `Int`). -/
def evictOld (snapshot : List Nat) (e : Nat) (m : FrameMap) : FrameMap :=
  snapshot.foldl
    (fun acc (k : Nat) => if (k : Int) < (e : Int) - 100 then eraseKey acc k else acc) m

/-- The `AudioPlayer` state touched by the jitter-buffer logic:
`frameMap`, `expectedSequence`, `packetsPlayed`, `packetsLost`, the
runtime-adjustable `jitterBufferMs`, and the `isPlaying` flag.
(`audioContext`/`gainNode` are non-null for the whole playback session and
are not modelled.) -/
structure PState where
  frameMap : FrameMap
  expectedSequence : Nat
  packetsPlayed : Nat
  packetsLost : Nat
  jitterBufferMs : Nat
  isPlaying : Bool
deriving DecidableEq

/-- `Math.ceil(this.jitterBufferMs / 20)` for the integer millisecond values
the player is configured with. -/
def jitterBufferFrames (ms : Nat) : Nat := (ms + 19) / 20

/-- `availableSeqs[0]`, the lowest buffered sequence (0 on an empty buffer,
but every use is guarded by a non-empty map). -/
def lowestSeq (s : PState) : Nat := (sortedSeqList s.frameMap).headD 0

/-- `availableSeqs[availableSeqs.length - 1]`, the highest buffered sequence. -/
def highestSeq (s : PState) : Nat := (sortedSeqList s.frameMap).getLastD 0

/-- `expectedSequence` after the bootstrap step
`if (this.expectedSequence === 0 && lowestSeq > 0) this.expectedSequence = lowestSeq`. -/
def bootSeq (s : PState) : Nat :=
  if s.expectedSequence = 0 ∧ 0 < lowestSeq s then lowestSeq s else s.expectedSequence

/-- `AudioPlayer.processFrames` of `frontend/src/utils/audio.ts` (the revision
without the gap-skip block): early return on an empty buffer, bootstrap,
buffering gate, contiguous drain, then eviction of sequences older than
`expectedSequence - 100`. Returns the new state and the sequence numbers
emitted to playback. -/
def processFrames (s : PState) : PState × List Nat :=
  if s.frameMap.length = 0 then (s, [])
  else if (highestSeq s : Int) - (bootSeq s : Int) + 1 < (jitterBufferFrames s.jitterBufferMs : Int) then
    ({ s with expectedSequence := bootSeq s }, [])
  else
    let r := drainLoop s.frameMap (bootSeq s) s.packetsPlayed
    ({ s with
        frameMap := evictOld (sortedSeqList s.frameMap) r.expected r.map,
        expectedSequence := r.expected,
        packetsPlayed := r.played }, r.emitted)

/-- `AudioPlayer.processFrames` of the other committed revision of
`utils/audio.ts`, which between the drain and the cleanup also runs the
packet-loss block: `nextSeq = availableSeqs.find(seq => seq > expectedSequence)`
over the pre-drain snapshot, and when found (`nextSeq` is then nonzero, hence
truthy, because it exceeds the non-negative `expectedSequence`) adds the gap
size to `packetsLost` and jumps `expectedSequence` to `nextSeq`. -/
def processFramesLossy (s : PState) : PState × List Nat :=
  if s.frameMap.length = 0 then (s, [])
  else if (highestSeq s : Int) - (bootSeq s : Int) + 1 < (jitterBufferFrames s.jitterBufferMs : Int) then
    ({ s with expectedSequence := bootSeq s }, [])
  else
    let r := drainLoop s.frameMap (bootSeq s) s.packetsPlayed
    match (sortedSeqList s.frameMap).find? (fun k => r.expected < k) with
    | some n =>
      ({ s with
          frameMap := evictOld (sortedSeqList s.frameMap) n r.map,
          expectedSequence := n,
          packetsPlayed := r.played,
          packetsLost := s.packetsLost + (n - r.expected) }, r.emitted)
    | none =>
      ({ s with
          frameMap := evictOld (sortedSeqList s.frameMap) r.expected r.map,
          expectedSequence := r.expected,
          packetsPlayed := r.played }, r.emitted)

/-- The insertion loop of `AudioPlayer.processBatch`: for `i < count`, when
`offset + 160 <= payload.length`, store a copy of
`payload.slice(i * 160, i * 160 + 160)` under `seqStart + i` unless that
sequence is already buffered. -/
def insertBatchFrames (m : FrameMap) (seqStart count : Nat) (payload : List Nat) : FrameMap :=
  (List.range count).foldl
    (fun acc i =>
      if i * 160 + 160 ≤ payload.length then
        insertIfAbsent acc (seqStart + i) ((payload.drop (i * 160)).take 160)
      else acc)
    m

/-- `AudioPlayer.processBatch`: guard on `isPlaying` and a non-empty payload,
defensive truncation of `count` to `floor(payload.length / 160)` when the
payload is short, the insertion loop, then an immediate `processFrames` call. -/
def processBatch (s : PState) (seqStart count : Nat) (payload : List Nat) : PState × List Nat :=
  if s.isPlaying = false ∨ payload.length = 0 then (s, [])
  else
    let count2 := if payload.length < count * 160 then payload.length / 160 else count
    processFrames { s with frameMap := insertBatchFrames s.frameMap seqStart count2 payload }

/-- One jitter-buffer operation of a playback session: a delivered batch, a
10 ms playback-driver tick, or a `setJitterBufferMs` adjustment. -/
inductive JOp where
  | deliverBatch (seqStart count : Nat) (payload : List Nat)
  | tick
  | setJitter (ms : Nat)

/-- Effect of one operation on the player state, together with the sequence
numbers emitted to playback by that operation. -/
def stepOp (s : PState) : JOp → PState × List Nat
  | .deliverBatch a c p => processBatch s a c p
  | .tick => processFrames s
  | .setJitter ms => ({ s with jitterBufferMs := ms }, [])

/-- The player state right after `AudioPlayer.start()`: cleared map,
`expectedSequence = 0`, zeroed counters, default 100 ms jitter buffer,
playing. -/
def startState : PState := ⟨[], 0, 0, 0, 100, true⟩

/-- Run a playback session from `startState`, concatenating everything
emitted to playback in order. -/
def runOps (ops : List JOp) : PState × List Nat :=
  ops.foldl (fun acc op => ((stepOp acc.1 op).1, acc.2 ++ (stepOp acc.1 op).2)) (startState, [])

/-- The `OpusEncoder` state touched by the sequencing logic: the `sequence`
counter, the recording flag, the frame queue (pairs of sequence number and
frame bytes) and the pending `audioChunks`. Media/metrics fields are not
modelled. -/
structure EncState where
  sequence : Nat
  isRecording : Bool
  frameQueue : List (Nat × Frame)
  audioChunks : List (List Nat)
deriving DecidableEq

/-- A freshly constructed `OpusEncoder`: `sequence = 0`, not recording. -/
def encInit : EncState := ⟨0, false, [], []⟩

/-- The state mutations of `OpusEncoder.start`: no-op while recording,
otherwise reset the frame queue (and metrics) and begin recording. The
`sequence` field is not touched. -/
def encStart (s : EncState) : EncState :=
  if s.isRecording then s else { s with frameQueue := [], isRecording := true }

/-- The state mutations of `OpusEncoder.stop`: no-op when not recording,
otherwise clear timers/devices (not modelled), clear the frame queue and stop
recording. The `sequence` field is not touched. -/
def encStop (s : EncState) : EncState :=
  if s.isRecording = false then s else { s with frameQueue := [], isRecording := false }

/-- The `ondataavailable` handler pushing a captured chunk. -/
def encAddChunk (s : EncState) (c : List Nat) : EncState :=
  { s with audioChunks := s.audioChunks ++ [c] }

/-- `OpusEncoder.processAudioChunks`: while recording (the send function is
set for the whole session) and with pending chunks of positive total length,
concatenate the chunks, split them into `floor(total / 160)` frames of
160 bytes, queue each frame as `{ sequence: this.sequence++, data }` (the
loop is modelled as a map over the frame indices), and clear the chunks. -/
def encProcessChunks (s : EncState) : EncState :=
  if s.isRecording = false ∨ s.audioChunks = [] then s
  else
    let combined := s.audioChunks.flatten
    if combined.length = 0 then s
    else
      let numFrames := combined.length / 160
      { s with
          audioChunks := [],
          frameQueue := s.frameQueue ++
            (List.range numFrames).map
              (fun i => (s.sequence + i, (combined.drop (i * 160)).take 160)),
          sequence := s.sequence + numFrames }

/-- One response of the RPC endpoint to one send attempt: success with a
transaction hash, or a failure carrying the error message the client sees. -/
inductive TxResponse where
  | ok (hash : Nat)
  | err (msg : String)

/-- Outcome of the deprecated `sendRawTransaction` helper of
`utils/blockchain.ts`: resolution with a hash, or one of its three rejection
shapes. -/
inductive SendOutcome where
  | resolved (hash : Nat)
  | maxRetriesExceeded (msg : String)
  | nonceError (msg : String)
  | otherError (msg : String)
deriving DecidableEq

/-- Outcome of the live `sendAudioBatch` submit path, which wraps any failure
of `realtime_sendRawTransaction` and re-throws it. -/
inductive LiveOutcome where
  | confirmed (hash : Nat)
  | failedImmediately (msg : String)
deriving DecidableEq

/-- `haystack.includes(needle)` on character lists (JavaScript
`String.prototype.includes`). -/
def charsInclude (pat : List Char) : List Char → Bool
  | [] => pat.isPrefixOf ([] : List Char)
  | c :: rest => pat.isPrefixOf (c :: rest) || charsInclude pat rest

/-- `s.includes(pat)` for strings. -/
def jsIncludes (s pat : String) : Bool := charsInclude pat.data s.data

/-- The retryable-error test of `sendRawTransaction`:
`errorMsg.includes('503') || errorMsg.includes('429') ||
errorMsg.includes('temporarily unavailable') ||
errorMsg.includes('intrinsic gas too low')`. -/
def isRetryableMsg (m : String) : Bool :=
  jsIncludes m "503" || jsIncludes m "429" ||
    jsIncludes m "temporarily unavailable" || jsIncludes m "intrinsic gas too low"

/-- `attemptRequest(retryCount, backoffMs)` inside `sendRawTransaction`
(blocking mode), driven by the sequence of endpoint responses indexed by
attempt number. Returns the outcome, the number of requests issued by this
call and the backoff delays waited before each retry. The recursion depth is
bounded by `maxRetries - retryCount`, so `fuel > maxRetries` always
suffices (`sendRawTransactionModel` below). -/
def attemptGo (responses : Nat → TxResponse) (maxRetries : Nat) :
    Nat → Nat → Nat → SendOutcome × Nat × List Nat
  | 0, _, _ => (.otherError "out of fuel", 1, [])
  | fuel + 1, retryCount, backoffMs =>
    match responses retryCount with
    | .ok h => (.resolved h, 1, [])
    | .err m =>
      if isRetryableMsg m then
        if retryCount < maxRetries then
          let rest := attemptGo responses maxRetries fuel (retryCount + 1) (backoffMs * 2)
          (rest.1, rest.2.1 + 1, backoffMs :: rest.2.2)
        else (.maxRetriesExceeded m, 1, [])
      else if jsIncludes m "nonce" then (.nonceError m, 1, [])
      else (.otherError m, 1, [])

/-- The deprecated `sendRawTransaction(signedTx, maxRetries = 3, true)`:
starts at `attemptRequest(0, 100)` with an initial 100 ms backoff. -/
def sendRawTransactionModel (responses : Nat → TxResponse) (maxRetries : Nat) :
    SendOutcome × Nat × List Nat :=
  attemptGo responses maxRetries (maxRetries + 1) 0 100

/-- The live submit path of `sendAudioBatch`: a single
`realtime_sendRawTransaction` request; any failure is wrapped and re-thrown
with no retry and no classification. Returns the outcome and the number of
requests issued (always 1). -/
def sendAudioBatchLive (responses : Nat → TxResponse) : LiveOutcome × Nat :=
  match responses 0 with
  | .ok h => (.confirmed h, 1)
  | .err m => (.failedImmediately ("Failed to send transaction via realtime API: " ++ m), 1)

/-- Value of a big-endian hex-digit list (digits are nibble values 0..15). -/
def hexVal (l : List Nat) : Nat := l.foldl (fun a d => 16 * a + d) 0

/-- Fuel-indexed minimal hex digits of `n`, most significant first, modelling
JavaScript `n.toString(16)` for non-negative integers; `fuel = n` always
suffices (`natToHex`). -/
def natToHexGo : Nat → Nat → List Nat
  | 0, n => [n % 16]
  | fuel + 1, n => if n < 16 then [n] else natToHexGo fuel (n / 16) ++ [n % 16]

/-- `n.toString(16)` as a digit list. -/
def natToHex (n : Nat) : List Nat := natToHexGo n n

/-- `str.padStart(w, '0')` on digit lists. -/
def padLeftZeros (w : Nat) (l : List Nat) : List Nat := List.replicate (w - l.length) 0 ++ l

/-- `byte.toString(16).padStart(2, '0')` for one payload byte. -/
def byteToHexPair (b : Nat) : List Nat := padLeftZeros 2 (natToHex b)

/-- `Array.from(frames).map(b => b.toString(16).padStart(2, '0')).join('')`. -/
def bytesToHex (bs : List Nat) : List Nat := (bs.map byteToHexPair).flatten

/-- The `sendBatch(bytes32,uint32,bytes)` selector `0x6e53d495` as nibbles. -/
def selectorHex : List Nat := [6, 14, 5, 3, 13, 4, 9, 5]

/-- `encodeABISendBatch(channelId, seqStart, frames)` of
`utils/blockchain.ts`, as the nibble list after the `0x` prefix: selector,
`channelId.slice(2).padStart(64, '0')`, `seqStart.toString(16).padStart(64)`,
the fixed dynamic-data offset `3 * 32 = 96`, the byte length of `frames`, and
the payload hex padded with zeros to a multiple of 64 hex characters (with
the `paddingLength === 64 ? 0 : paddingLength` correction of the source). -/
def encodeABISendBatch (channelIdHex : List Nat) (seqStart : Nat) (frames : List Nat) : List Nat :=
  let framesHex := bytesToHex frames
  let paddingLength := 64 - framesHex.length % 64
  selectorHex ++ padLeftZeros 64 channelIdHex ++ padLeftZeros 64 (natToHex seqStart) ++
    padLeftZeros 64 (natToHex 96) ++ padLeftZeros 64 (natToHex frames.length) ++
    (framesHex ++ List.replicate (if paddingLength = 64 then 0 else paddingLength) 0)

/-- Standard ABI calldata decoding of the `seqStart` argument of
`OnchainBroadcast.sendBatch` (nibbles 72..136 after the 8-nibble selector and
the 64-nibble `channelId`); this value is emitted unchanged in the `Batch`
event and handed to the listener by the event decoder. -/
def calldataSeqStart (cd : List Nat) : Nat := hexVal ((cd.drop 72).take 64)

/-- Standard ABI calldata decoding of the byte length of the dynamic `frames`
argument (nibbles 200..264). -/
def calldataFramesLength (cd : List Nat) : Nat := hexVal ((cd.drop 200).take 64)

/-- The hex digits of the `frames` bytes themselves (from nibble 264, two
nibbles per byte). The contract emits exactly these bytes as the `Batch`
event payload, which the listener-side event decoder surfaces as a
`0x`-prefixed hex string. -/
def calldataFramesHex (cd : List Nat) : List Nat :=
  (cd.drop 264).take (2 * calldataFramesLength cd)

/-- `uint8(frames.length / 160)`, the `count` computed and emitted by
`OnchainBroadcast.sendBatch`. -/
def batchEventCount (cd : List Nat) : Nat := (calldataFramesLength cd / 160) % 256

/-- The hex-string-to-bytes conversion inside `processLog` of
`listenToAudioBatches`:
`Array.from({length: floor(len / 2)}, (_, i) => parseInt(hex.substring(2i, 2i + 2), 16))`. -/
def jsHexToBytes (h : List Nat) : List Nat :=
  (List.range (h.length / 2)).map (fun i => 16 * h.getD (2 * i) 0 + h.getD (2 * i + 1) 0)

/-- Structural pairing form of `jsHexToBytes` (proved equal below). -/
def hexPairsToBytes : List Nat → List Nat
  | d1 :: d2 :: rest => (16 * d1 + d2) :: hexPairsToBytes rest
  | _ => []

/-- What the listener recovers from a `sendBatch` calldata encoding: the
event payload hex converted to bytes by `processLog`. -/
def decodeEventPayload (cd : List Nat) : List Nat := jsHexToBytes (calldataFramesHex cd)

/-- `handleAudioBatch` of `Listener.tsx`: the delivered batch is forwarded to
`player.processBatch` only when `batchData.channelId` (the channel key string
put into the batch record by `listenToAudioBatches`, namely
`keccak256(stringToHex(channel))`, a 66-character `0x`-hex string) is equal
to the `channelId` string the listener subscribed with; otherwise the handler
returns without touching the player. -/
def handleAudioBatch (subscribedChannel deliveredChannelKey : String) (s : PState)
    (seqStart count : Nat) (payload : List Nat) : PState × List Nat :=
  if deliveredChannelKey ≠ subscribedChannel then (s, [])
  else processBatch s seqStart count payload

-- ==================== helper lemmas ====================

theorem hasKey_iff_mem {m : FrameMap} {k : Nat} : hasKey m k = true ↔ k ∈ keyList m := by
  simp [hasKey, keyList, List.any_eq_true]

theorem mem_eraseKey {m : FrameMap} {k : Nat} {kv : Nat × Frame} :
    kv ∈ eraseKey m k ↔ kv ∈ m ∧ kv.1 ≠ k := by
  simp [eraseKey, List.mem_filter]

theorem mem_keyList_eraseKey {m : FrameMap} {k j : Nat} :
    j ∈ keyList (eraseKey m k) ↔ j ∈ keyList m ∧ j ≠ k := by
  constructor
  · intro h
    rcases List.mem_map.1 h with ⟨kv, hkv, rfl⟩
    rcases mem_eraseKey.1 hkv with ⟨hm, hne⟩
    exact ⟨List.mem_map.2 ⟨kv, hm, rfl⟩, hne⟩
  · rintro ⟨hj, hne⟩
    rcases List.mem_map.1 hj with ⟨kv, hkv, rfl⟩
    exact List.mem_map.2 ⟨kv, mem_eraseKey.2 ⟨hkv, hne⟩, rfl⟩

theorem hasKey_eraseKey_self (m : FrameMap) (k : Nat) :
    hasKey (eraseKey m k) k = false := by
  by_contra h
  have h' : hasKey (eraseKey m k) k = true := by
    cases hv : hasKey (eraseKey m k) k
    · exact absurd hv h
    · rfl
  have := (mem_keyList_eraseKey.1 (hasKey_iff_mem.1 h')).2
  exact this rfl

theorem length_eraseKey_lt {m : FrameMap} {k : Nat} (h : hasKey m k = true) :
    (eraseKey m k).length < m.length := by
  rcases List.mem_map.1 (hasKey_iff_mem.1 h) with ⟨kv, hkv, hk⟩
  unfold eraseKey
  by_contra hle
  push_neg at hle
  have hlen := List.length_filter_le (fun kv => !(kv.1 == k)) m
  have heq : (m.filter (fun kv => !(kv.1 == k))).length = m.length :=
    Nat.le_antisymm hlen hle
  have hall := (List.filter_length_eq_length).1 heq
  have := hall kv hkv
  simp [hk] at this

theorem mem_of_mem_eraseKey {m : FrameMap} {k : Nat} {kv : Nat × Frame}
    (h : kv ∈ eraseKey m k) : kv ∈ m := (mem_eraseKey.1 h).1

theorem mem_insertIfAbsent {m : FrameMap} {k : Nat} {v : Frame} {kv : Nat × Frame}
    (h : kv ∈ insertIfAbsent m k v) : kv ∈ m ∨ kv = (k, v) := by
  unfold insertIfAbsent at h
  by_cases hk : hasKey m k = true
  · simp [hk] at h; exact Or.inl h
  · simp [hk] at h
    rcases h with h | h
    · exact Or.inl h
    · exact Or.inr (by simp [h])

theorem mem_sortedSeqList {m : FrameMap} {k : Nat} :
    k ∈ sortedSeqList m ↔ k ∈ keyList m := List.mem_insertionSort _

theorem sorted_sortedSeqList (m : FrameMap) : List.Sorted (· ≤ ·) (sortedSeqList m) :=
  List.sorted_insertionSort _ _

theorem drainGo_expected_ge : ∀ (fuel : Nat) (m : FrameMap) (e p : Nat),
    e ≤ (drainGo fuel m e p).expected := by
  intro fuel
  induction fuel with
  | zero => intro m e p; exact Nat.le_refl _
  | succ f ih =>
    intro m e p
    unfold drainGo
    by_cases h : hasKey m e = true
    · simp only [h, if_true]
      exact Nat.le_trans (Nat.le_succ e) (ih (eraseKey m e) (e + 1) (p + 1))
    · simp only [h]
      simp

theorem drainGo_emitted_eq : ∀ (fuel : Nat) (m : FrameMap) (e p : Nat),
    (drainGo fuel m e p).emitted =
      List.range' e ((drainGo fuel m e p).expected - e) := by
  intro fuel
  induction fuel with
  | zero => intro m e p; simp [drainGo]
  | succ f ih =>
    intro m e p
    unfold drainGo
    by_cases h : hasKey m e = true
    · simp only [h, if_true]
      have hge := drainGo_expected_ge f (eraseKey m e) (e + 1) (p + 1)
      have hk : (drainGo f (eraseKey m e) (e + 1) (p + 1)).expected - e =
          ((drainGo f (eraseKey m e) (e + 1) (p + 1)).expected - (e + 1)) + 1 := by omega
      rw [ih (eraseKey m e) (e + 1) (p + 1)]
      simp only [hk, List.range'_succ]
    · simp [h]

theorem drainGo_map_subset : ∀ (fuel : Nat) (m : FrameMap) (e p : Nat)
    (kv : Nat × Frame), kv ∈ (drainGo fuel m e p).map → kv ∈ m := by
  intro fuel
  induction fuel with
  | zero => intro m e p kv h; simpa [drainGo] using h
  | succ f ih =>
    intro m e p kv h
    unfold drainGo at h
    by_cases hk : hasKey m e = true
    · simp only [hk, if_true] at h
      exact mem_of_mem_eraseKey (ih (eraseKey m e) (e + 1) (p + 1) kv h)
    · simp only [hk] at h
      simpa using h

theorem drainGo_not_hasKey : ∀ (fuel : Nat) (m : FrameMap) (e p : Nat),
    m.length ≤ fuel →
    hasKey (drainGo fuel m e p).map (drainGo fuel m e p).expected = false := by
  intro fuel
  induction fuel with
  | zero =>
    intro m e p hlen
    have : m = [] := List.length_eq_zero.1 (Nat.le_zero.1 hlen)
    subst this
    simp [drainGo, hasKey]
  | succ f ih =>
    intro m e p hlen
    unfold drainGo
    by_cases hk : hasKey m e = true
    · simp only [hk, if_true]
      exact ih (eraseKey m e) (e + 1) (p + 1)
        (by have := length_eraseKey_lt hk; omega)
    · simp only [hk]
      simpa using hk

theorem drainGo_keyList_mem : ∀ (fuel : Nat) (m : FrameMap) (e p : Nat),
    m.length ≤ fuel → ∀ k : Nat,
    (k ∈ keyList (drainGo fuel m e p).map ↔
      k ∈ keyList m ∧ ¬(e ≤ k ∧ k < (drainGo fuel m e p).expected)) := by
  intro fuel
  induction fuel with
  | zero =>
    intro m e p hlen k
    have : m = [] := List.length_eq_zero.1 (Nat.le_zero.1 hlen)
    subst this
    simp [drainGo, keyList]
  | succ f ih =>
    intro m e p hlen k
    unfold drainGo
    by_cases hk : hasKey m e = true
    · simp only [hk, if_true]
      have hlen' : (eraseKey m e).length ≤ f := by
        have := length_eraseKey_lt hk; omega
      have hge := drainGo_expected_ge f (eraseKey m e) (e + 1) (p + 1)
      rw [ih (eraseKey m e) (e + 1) (p + 1) hlen' k]
      rw [mem_keyList_eraseKey]
      constructor
      · rintro ⟨⟨hm, hne⟩, hnot⟩
        exact ⟨hm, by omega⟩
      · rintro ⟨hm, hnot⟩
        refine ⟨⟨hm, ?_⟩, by omega⟩
        intro hek
        exact hnot (by omega)
    · rw [if_neg hk]
      dsimp only
      constructor
      · intro hm; exact ⟨hm, by omega⟩
      · rintro ⟨hm, _⟩; exact hm

theorem drainLoop_expected_ge (m : FrameMap) (e p : Nat) :
    e ≤ (drainLoop m e p).expected := drainGo_expected_ge _ _ _ _

theorem drainLoop_emitted_eq (m : FrameMap) (e p : Nat) :
    (drainLoop m e p).emitted = List.range' e ((drainLoop m e p).expected - e) :=
  drainGo_emitted_eq _ _ _ _

theorem drainLoop_map_subset {m : FrameMap} {e p : Nat} {kv : Nat × Frame}
    (h : kv ∈ (drainLoop m e p).map) : kv ∈ m := drainGo_map_subset _ _ _ _ _ h

theorem drainLoop_not_hasKey (m : FrameMap) (e p : Nat) :
    hasKey (drainLoop m e p).map (drainLoop m e p).expected = false :=
  drainGo_not_hasKey _ _ _ _ (Nat.le_refl _)

theorem drainLoop_keyList_mem (m : FrameMap) (e p : Nat) (k : Nat) :
    k ∈ keyList (drainLoop m e p).map ↔
      k ∈ keyList m ∧ ¬(e ≤ k ∧ k < (drainLoop m e p).expected) :=
  drainGo_keyList_mem _ _ _ _ (Nat.le_refl _) k

theorem evictOld_forward : ∀ (snapshot : List Nat) (e : Nat) (m : FrameMap)
    (kv : Nat × Frame), kv ∈ evictOld snapshot e m →
    kv ∈ m ∧ (kv.1 ∈ snapshot → ¬((kv.1 : Int) < (e : Int) - 100)) := by
  intro snapshot
  induction snapshot with
  | nil => intro e m kv h; simpa [evictOld] using h
  | cons a t ih =>
    intro e m kv h
    have h' : kv ∈ evictOld t e (if (a : Int) < (e : Int) - 100 then eraseKey m a else m) := by
      simpa [evictOld, List.foldl_cons] using h
    rcases ih e _ kv h' with ⟨hm', ht⟩
    by_cases hc : (a : Int) < (e : Int) - 100
    · rw [if_pos hc] at hm'
      rcases mem_eraseKey.1 hm' with ⟨hm, hne⟩
      refine ⟨hm, ?_⟩
      intro hmem
      rcases List.mem_cons.1 hmem with rfl | hmt
      · exact absurd rfl hne
      · exact ht hmt
    · rw [if_neg hc] at hm'
      refine ⟨hm', ?_⟩
      intro hmem
      rcases List.mem_cons.1 hmem with heq | hmt
      · rw [heq]; exact hc
      · exact ht hmt

theorem bootSeq_ge (s : PState) : s.expectedSequence ≤ bootSeq s := by
  unfold bootSeq
  by_cases h : s.expectedSequence = 0 ∧ 0 < lowestSeq s
  · rw [if_pos h]; omega
  · rw [if_neg h]

theorem processFrames_expected_mono (s : PState) :
    s.expectedSequence ≤ (processFrames s).1.expectedSequence := by
  unfold processFrames
  by_cases h0 : s.frameMap.length = 0
  · rw [if_pos h0]
  · rw [if_neg h0]
    by_cases hgate : (highestSeq s : Int) - (bootSeq s : Int) + 1 <
        (jitterBufferFrames s.jitterBufferMs : Int)
    · rw [if_pos hgate]
      exact bootSeq_ge s
    · rw [if_neg hgate]
      exact Nat.le_trans (bootSeq_ge s)
        (drainLoop_expected_ge s.frameMap (bootSeq s) s.packetsPlayed)

theorem processFrames_emitted_range (s : PState) :
    ∃ a, s.expectedSequence ≤ a ∧ a ≤ (processFrames s).1.expectedSequence ∧
      (processFrames s).2 = List.range' a ((processFrames s).1.expectedSequence - a) := by
  unfold processFrames
  by_cases h0 : s.frameMap.length = 0
  · rw [if_pos h0]
    exact ⟨s.expectedSequence, Nat.le_refl _, Nat.le_refl _, by simp⟩
  · rw [if_neg h0]
    by_cases hgate : (highestSeq s : Int) - (bootSeq s : Int) + 1 <
        (jitterBufferFrames s.jitterBufferMs : Int)
    · rw [if_pos hgate]
      exact ⟨bootSeq s, bootSeq_ge s, Nat.le_refl _, by simp⟩
    · rw [if_neg hgate]
      refine ⟨bootSeq s, bootSeq_ge s, ?_, ?_⟩
      · exact drainLoop_expected_ge s.frameMap (bootSeq s) s.packetsPlayed
      · exact drainLoop_emitted_eq s.frameMap (bootSeq s) s.packetsPlayed

theorem stepOp_emitted_range (s : PState) (op : JOp) :
    ∃ a, s.expectedSequence ≤ a ∧ a ≤ (stepOp s op).1.expectedSequence ∧
      (stepOp s op).2 = List.range' a ((stepOp s op).1.expectedSequence - a) := by
  cases op with
  | deliverBatch q c p =>
    show ∃ a, s.expectedSequence ≤ a ∧ a ≤ (processBatch s q c p).1.expectedSequence ∧
      (processBatch s q c p).2 =
        List.range' a ((processBatch s q c p).1.expectedSequence - a)
    unfold processBatch
    by_cases h : s.isPlaying = false ∨ p.length = 0
    · rw [if_pos h]
      exact ⟨s.expectedSequence, Nat.le_refl _, Nat.le_refl _, by simp⟩
    · rw [if_neg h]
      dsimp only
      exact processFrames_emitted_range
        { s with frameMap := insertBatchFrames s.frameMap q (if p.length < c * 160 then p.length / 160 else c) p }
  | tick => exact processFrames_emitted_range s
  | setJitter ms =>
    exact ⟨s.expectedSequence, Nat.le_refl _, Nat.le_refl _, by simp [stepOp]⟩

theorem stepOp_expected_mono (s : PState) (op : JOp) :
    s.expectedSequence ≤ (stepOp s op).1.expectedSequence := by
  rcases stepOp_emitted_range s op with ⟨a, h1, h2, _⟩
  omega

theorem runOps_foldl_invariant : ∀ (ops : List JOp) (s : PState) (acc : List Nat),
    List.Pairwise (· < ·) acc →
    (∀ x ∈ acc, x < s.expectedSequence) →
    List.Pairwise (· < ·)
      (ops.foldl (fun acc2 op => ((stepOp acc2.1 op).1, acc2.2 ++ (stepOp acc2.1 op).2)) (s, acc)).2 ∧
    (∀ x ∈ (ops.foldl (fun acc2 op => ((stepOp acc2.1 op).1, acc2.2 ++ (stepOp acc2.1 op).2)) (s, acc)).2,
      x < (ops.foldl (fun acc2 op => ((stepOp acc2.1 op).1, acc2.2 ++ (stepOp acc2.1 op).2)) (s, acc)).1.expectedSequence) := by
  intro ops
  induction ops with
  | nil => intro s acc h1 h2; exact ⟨h1, h2⟩
  | cons op rest ih =>
    intro s acc h1 h2
    rw [List.foldl_cons]
    rcases stepOp_emitted_range s op with ⟨a, hsa, hae, hout⟩
    refine ih (stepOp s op).1 (acc ++ (stepOp s op).2) ?_ ?_
    · rw [List.pairwise_append]
      refine ⟨h1, ?_, ?_⟩
      · rw [hout]
        exact List.pairwise_lt_range' a _ 1
      · intro x hx y hy
        have hy' : a ≤ y := by
          rw [hout] at hy
          exact (List.mem_range'_1.1 hy).1
        have hx' := h2 x hx
        omega
    · intro x hx
      rcases List.mem_append.1 hx with hxa | hxo
      · have := h2 x hxa
        omega
      · rw [hout] at hxo
        have := List.mem_range'_1.1 hxo
        omega

theorem find?_sorted_least : ∀ (l : List Nat), List.Sorted (· ≤ ·) l →
    ∀ (e n : Nat), n ∈ l → e < n → (∀ k ∈ l, e < k → n ≤ k) →
    l.find? (fun k => e < k) = some n := by
  intro l
  induction l with
  | nil => intro _ e n hn; cases hn
  | cons a t ih =>
    intro hs e n hn hen hmin
    by_cases ha : e < a
    · have h1 : n ≤ a := hmin a (List.mem_cons_self a t) ha
      have h2 : a ≤ n := by
        rcases List.mem_cons.1 hn with rfl | hnt
        · exact Nat.le_refl _
        · exact List.rel_of_sorted_cons hs n hnt
      have : a = n := Nat.le_antisymm h2 h1
      subst this
      rw [List.find?_cons_of_pos]
      simpa using ha
    · have hna : n ≠ a := by
        intro h; subst h; exact ha hen
      have hnt : n ∈ t := by
        rcases List.mem_cons.1 hn with h | h
        · exact absurd h hna
        · exact h
      rw [List.find?_cons_of_neg]
      · exact ih hs.of_cons e n hnt hen (fun k hk => hmin k (List.mem_cons_of_mem a hk))
      · simpa using ha

theorem insertIfAbsent_idem (m : FrameMap) (k : Nat) (v : Frame) :
    insertIfAbsent (insertIfAbsent m k v) k v = insertIfAbsent m k v := by
  unfold insertIfAbsent
  by_cases h : hasKey m k = true
  · simp only [if_pos h]
  · have h' : hasKey (m ++ [(k, v)]) k = true := by
      simp [hasKey, List.any_append]
    simp only [if_neg h, if_pos h']

theorem insertBatchFrames_frame_size {m : FrameMap} {a c : Nat} {p : List Nat}
    (hm : ∀ kv ∈ m, kv.2.length = 160) :
    ∀ kv ∈ insertBatchFrames m a c p, kv.2.length = 160 := by
  unfold insertBatchFrames
  generalize List.range c = idxs
  induction idxs generalizing m with
  | nil => intro kv hkv; exact hm kv hkv
  | cons i t ih =>
    intro kv hkv
    rw [List.foldl_cons] at hkv
    by_cases hc : i * 160 + 160 ≤ p.length
    · rw [if_pos hc] at hkv
      refine ih ?_ kv hkv
      intro kv' hkv'
      rcases mem_insertIfAbsent hkv' with h | h
      · exact hm kv' h
      · subst h
        have : (p.drop (i * 160)).length = p.length - i * 160 := List.length_drop _ _
        simp only [List.length_take, this]
        omega
    · rw [if_neg hc] at hkv
      exact ih hm kv hkv

theorem processFrames_map_subset {s : PState} {kv : Nat × Frame}
    (h : kv ∈ (processFrames s).1.frameMap) : kv ∈ s.frameMap := by
  unfold processFrames at h
  by_cases h0 : s.frameMap.length = 0
  · rw [if_pos h0] at h; exact h
  · rw [if_neg h0] at h
    by_cases hgate : (highestSeq s : Int) - (bootSeq s : Int) + 1 <
        (jitterBufferFrames s.jitterBufferMs : Int)
    · rw [if_pos hgate] at h; exact h
    · rw [if_neg hgate] at h
      dsimp only at h
      exact drainLoop_map_subset (evictOld_forward _ _ _ _ h).1

theorem stepOp_frame_size {s : PState} (hm : ∀ kv ∈ s.frameMap, kv.2.length = 160)
    (op : JOp) : ∀ kv ∈ (stepOp s op).1.frameMap, kv.2.length = 160 := by
  cases op with
  | deliverBatch a c p =>
    intro kv hkv
    show kv.2.length = 160
    have hkv' : kv ∈ (processBatch s a c p).1.frameMap := hkv
    unfold processBatch at hkv'
    by_cases h : s.isPlaying = false ∨ p.length = 0
    · rw [if_pos h] at hkv'; exact hm kv hkv'
    · rw [if_neg h] at hkv'
      dsimp only at hkv'
      have := processFrames_map_subset hkv'
      exact insertBatchFrames_frame_size hm kv this
  | tick =>
    intro kv hkv
    exact hm kv (processFrames_map_subset hkv)
  | setJitter ms =>
    intro kv hkv
    exact hm kv hkv

theorem runOps_foldl_frame_size : ∀ (ops : List JOp) (s : PState) (acc : List Nat),
    (∀ kv ∈ s.frameMap, kv.2.length = 160) →
    ∀ kv ∈ (ops.foldl (fun acc2 op => ((stepOp acc2.1 op).1, acc2.2 ++ (stepOp acc2.1 op).2)) (s, acc)).1.frameMap,
      kv.2.length = 160 := by
  intro ops
  induction ops with
  | nil => intro s acc hm kv hkv; exact hm kv hkv
  | cons op rest ih =>
    intro s acc hm kv hkv
    rw [List.foldl_cons] at hkv
    exact ih (stepOp s op).1 (acc ++ (stepOp s op).2) (stepOp_frame_size hm op) kv hkv

theorem hexVal_foldl_init : ∀ (l : List Nat) (i : Nat),
    l.foldl (fun a d => 16 * a + d) i = i * 16 ^ l.length + hexVal l := by
  intro l
  induction l with
  | nil => intro i; simp [hexVal]
  | cons d t ih =>
    intro i
    show t.foldl (fun a d => 16 * a + d) (16 * i + d) = i * 16 ^ (d :: t).length + hexVal (d :: t)
    have h1 := ih (16 * i + d)
    have h2 : hexVal (d :: t) = d * 16 ^ t.length + hexVal t := by
      show t.foldl (fun a d => 16 * a + d) (16 * 0 + d) = _
      rw [ih (16 * 0 + d)]
      ring_nf
    rw [h1, h2, List.length_cons, pow_succ]
    ring

theorem hexVal_append (a b : List Nat) :
    hexVal (a ++ b) = hexVal a * 16 ^ b.length + hexVal b := by
  show (a ++ b).foldl (fun a d => 16 * a + d) 0 = _
  rw [List.foldl_append]
  exact hexVal_foldl_init b _

theorem hexVal_replicate_zero (k : Nat) : hexVal (List.replicate k 0) = 0 := by
  induction k with
  | zero => rfl
  | succ n ih =>
    show (List.replicate (n + 1) 0).foldl (fun a d => 16 * a + d) 0 = 0
    rw [List.replicate_succ, List.foldl_cons]
    simpa [hexVal] using ih

theorem hexVal_padLeftZeros (w : Nat) (l : List Nat) :
    hexVal (padLeftZeros w l) = hexVal l := by
  unfold padLeftZeros
  rw [hexVal_append, hexVal_replicate_zero]
  simp

theorem padLeftZeros_length {w : Nat} {l : List Nat} (h : l.length ≤ w) :
    (padLeftZeros w l).length = w := by
  unfold padLeftZeros
  rw [List.length_append, List.length_replicate]
  omega

theorem natToHexGo_val : ∀ (fuel n : Nat), n < 16 ^ (fuel + 1) →
    hexVal (natToHexGo fuel n) = n := by
  intro fuel
  induction fuel with
  | zero =>
    intro n h
    have : n < 16 := by simpa using h
    show hexVal [n % 16] = n
    simp [hexVal, Nat.mod_eq_of_lt this]
  | succ f ih =>
    intro n h
    unfold natToHexGo
    by_cases hn : n < 16
    · rw [if_pos hn]; simp [hexVal]
    · rw [if_neg hn]
      have hdiv : n / 16 < 16 ^ (f + 1) := by
        rw [Nat.div_lt_iff_lt_mul (by norm_num : 0 < 16)]
        calc n < 16 ^ (f + 1 + 1) := h
          _ = 16 ^ (f + 1) * 16 := by rw [pow_succ]
      rw [hexVal_append, ih (n / 16) hdiv]
      simp [hexVal]
      omega

theorem natToHex_val (n : Nat) : hexVal (natToHex n) = n := by
  refine natToHexGo_val n n ?_
  calc n < 2 ^ n := n.lt_two_pow
    _ ≤ 16 ^ n := Nat.pow_le_pow_left (by norm_num) n
    _ ≤ 16 ^ (n + 1) := Nat.pow_le_pow_right (by norm_num) (Nat.le_succ n)

theorem natToHexGo_length_le : ∀ (fuel n k : Nat), 1 ≤ k → n < 16 ^ k →
    (natToHexGo fuel n).length ≤ k := by
  intro fuel
  induction fuel with
  | zero => intro n k hk _; simpa [natToHexGo] using hk
  | succ f ih =>
    intro n k hk h
    unfold natToHexGo
    by_cases hn : n < 16
    · rw [if_pos hn]; simpa using hk
    · rw [if_neg hn]
      have hk2 : 2 ≤ k := by
        by_contra hlt
        have : k = 1 := by omega
        subst this
        simp at h
        omega
      have hdiv : n / 16 < 16 ^ (k - 1) := by
        rw [Nat.div_lt_iff_lt_mul (by norm_num : 0 < 16)]
        calc n < 16 ^ k := h
          _ = 16 ^ (k - 1) * 16 := by
            rw [← pow_succ]
            congr 1
            omega
      have := ih (n / 16) (k - 1) (by omega) hdiv
      rw [List.length_append]
      simp only [List.length_cons, List.length_nil]
      omega

theorem natToHex_length_le {n k : Nat} (hk : 1 ≤ k) (h : n < 16 ^ k) :
    (natToHex n).length ≤ k := natToHexGo_length_le n n k hk h

theorem byteToHexPair_pair (b : Nat) (h : b < 256) :
    ∃ x y, byteToHexPair b = [x, y] ∧ 16 * x + y = b := by
  have hlen : (byteToHexPair b).length = 2 := by
    unfold byteToHexPair
    exact padLeftZeros_length (natToHex_length_le (by norm_num) (by simpa using h))
  have hv : hexVal (byteToHexPair b) = b := by
    unfold byteToHexPair
    rw [hexVal_padLeftZeros, natToHex_val]
  rcases List.length_eq_two.1 hlen with ⟨x, y, hxy⟩
  refine ⟨x, y, hxy, ?_⟩
  rw [hxy] at hv
  simpa [hexVal] using hv

theorem bytesToHex_spec : ∀ (bs : List Nat), (∀ b ∈ bs, b < 256) →
    hexPairsToBytes (bytesToHex bs) = bs ∧ (bytesToHex bs).length = 2 * bs.length := by
  intro bs
  induction bs with
  | nil => intro _; exact ⟨rfl, rfl⟩
  | cons b t ih =>
    intro hb
    have hbt : ∀ x ∈ t, x < 256 := fun x hx => hb x (List.mem_cons_of_mem b hx)
    rcases ih hbt with ⟨ih1, ih2⟩
    have hcons : bytesToHex (b :: t) = byteToHexPair b ++ bytesToHex t := by
      unfold bytesToHex
      rw [List.map_cons, List.flatten_cons]
    rcases byteToHexPair_pair b (hb b (List.mem_cons_self b t)) with ⟨x, y, hxy, hval⟩
    constructor
    · rw [hcons, hxy]
      show hexPairsToBytes (x :: y :: bytesToHex t) = b :: t
      rw [hexPairsToBytes, hval, ih1]
    · rw [hcons, List.length_append, hxy, ih2]
      simp
      omega

theorem jsHexToBytes_aux : ∀ (n : Nat) (h : List Nat), h.length ≤ n →
    jsHexToBytes h = hexPairsToBytes h := by
  intro n
  induction n with
  | zero =>
    intro h hlen
    have : h = [] := List.length_eq_zero.1 (Nat.le_zero.1 hlen)
    subst this
    rfl
  | succ n ih =>
    intro h hlen
    match h with
    | [] => rfl
    | [d] => simp [jsHexToBytes, hexPairsToBytes]
    | d1 :: d2 :: t =>
      have hlen2 : (d1 :: d2 :: t).length = t.length + 2 := by simp
      have hdiv : (d1 :: d2 :: t).length / 2 = t.length / 2 + 1 := by
        rw [hlen2]; omega
      have ht : jsHexToBytes t = hexPairsToBytes t := by
        refine ih t ?_
        simp at hlen
        omega
      show jsHexToBytes (d1 :: d2 :: t) = (16 * d1 + d2) :: hexPairsToBytes t
      unfold jsHexToBytes
      rw [hdiv, List.range_succ_eq_map, List.map_cons, List.map_map]
      congr 1

theorem jsHexToBytes_eq_pairs (h : List Nat) : jsHexToBytes h = hexPairsToBytes h :=
  jsHexToBytes_aux h.length h (Nat.le_refl _)

theorem encodeABISendBatch_parts (ch : List Nat) (q : Nat) (fr : List Nat)
    (hch : ch.length = 64) (hq : q < 16 ^ 64) (hfr : ∀ b ∈ fr, b < 256)
    (hflen : fr.length < 16 ^ 64) :
    calldataSeqStart (encodeABISendBatch ch q fr) = q ∧
    calldataFramesLength (encodeABISendBatch ch q fr) = fr.length ∧
    calldataFramesHex (encodeABISendBatch ch q fr) = bytesToHex fr := by
  have hA : (padLeftZeros 64 ch).length = 64 := padLeftZeros_length (Nat.le_of_eq hch)
  have hB : (padLeftZeros 64 (natToHex q)).length = 64 :=
    padLeftZeros_length (natToHex_length_le (by norm_num) hq)
  have hC : (padLeftZeros 64 (natToHex 96)).length = 64 :=
    padLeftZeros_length (natToHex_length_le (by norm_num) (by norm_num))
  have hD : (padLeftZeros 64 (natToHex fr.length)).length = 64 :=
    padLeftZeros_length (natToHex_length_le (by norm_num) hflen)
  have hsel : selectorHex.length = 8 := rfl
  have hcd : encodeABISendBatch ch q fr =
      selectorHex ++ (padLeftZeros 64 ch ++ (padLeftZeros 64 (natToHex q) ++
        (padLeftZeros 64 (natToHex 96) ++ (padLeftZeros 64 (natToHex fr.length) ++
          (bytesToHex fr ++ List.replicate
            (if 64 - (bytesToHex fr).length % 64 = 64 then 0
             else 64 - (bytesToHex fr).length % 64) 0))))) := by
    unfold encodeABISendBatch
    simp [List.append_assoc]
  have hdrop8 : (encodeABISendBatch ch q fr).drop 8 =
      padLeftZeros 64 ch ++ (padLeftZeros 64 (natToHex q) ++
        (padLeftZeros 64 (natToHex 96) ++ (padLeftZeros 64 (natToHex fr.length) ++
          (bytesToHex fr ++ List.replicate
            (if 64 - (bytesToHex fr).length % 64 = 64 then 0
             else 64 - (bytesToHex fr).length % 64) 0)))) := by
    rw [hcd]
    exact List.drop_left' hsel
  have hdrop72 : (encodeABISendBatch ch q fr).drop 72 =
      padLeftZeros 64 (natToHex q) ++
        (padLeftZeros 64 (natToHex 96) ++ (padLeftZeros 64 (natToHex fr.length) ++
          (bytesToHex fr ++ List.replicate
            (if 64 - (bytesToHex fr).length % 64 = 64 then 0
             else 64 - (bytesToHex fr).length % 64) 0))) := by
    have h1 : (encodeABISendBatch ch q fr).drop 72 =
        ((encodeABISendBatch ch q fr).drop 8).drop 64 := by
      rw [List.drop_drop]
    rw [h1, hdrop8]
    exact List.drop_left' hA
  have hdrop136 : (encodeABISendBatch ch q fr).drop 136 =
      padLeftZeros 64 (natToHex 96) ++ (padLeftZeros 64 (natToHex fr.length) ++
        (bytesToHex fr ++ List.replicate
          (if 64 - (bytesToHex fr).length % 64 = 64 then 0
           else 64 - (bytesToHex fr).length % 64) 0)) := by
    have h1 : (encodeABISendBatch ch q fr).drop 136 =
        ((encodeABISendBatch ch q fr).drop 72).drop 64 := by
      rw [List.drop_drop]
    rw [h1, hdrop72]
    exact List.drop_left' hB
  have hdrop200 : (encodeABISendBatch ch q fr).drop 200 =
      padLeftZeros 64 (natToHex fr.length) ++
        (bytesToHex fr ++ List.replicate
          (if 64 - (bytesToHex fr).length % 64 = 64 then 0
           else 64 - (bytesToHex fr).length % 64) 0) := by
    have h1 : (encodeABISendBatch ch q fr).drop 200 =
        ((encodeABISendBatch ch q fr).drop 136).drop 64 := by
      rw [List.drop_drop]
    rw [h1, hdrop136]
    exact List.drop_left' hC
  have hdrop264 : (encodeABISendBatch ch q fr).drop 264 =
      bytesToHex fr ++ List.replicate
        (if 64 - (bytesToHex fr).length % 64 = 64 then 0
         else 64 - (bytesToHex fr).length % 64) 0 := by
    have h1 : (encodeABISendBatch ch q fr).drop 264 =
        ((encodeABISendBatch ch q fr).drop 200).drop 64 := by
      rw [List.drop_drop]
    rw [h1, hdrop200]
    exact List.drop_left' hD
  have hseq : calldataSeqStart (encodeABISendBatch ch q fr) = q := by
    unfold calldataSeqStart
    rw [hdrop72, List.take_left' hB, hexVal_padLeftZeros, natToHex_val]
  have hlenfield : calldataFramesLength (encodeABISendBatch ch q fr) = fr.length := by
    unfold calldataFramesLength
    rw [hdrop200, List.take_left' hD, hexVal_padLeftZeros, natToHex_val]
  refine ⟨hseq, hlenfield, ?_⟩
  unfold calldataFramesHex
  rw [hlenfield, hdrop264]
  exact List.take_left' (bytesToHex_spec fr hfr).2

theorem attemptGo_spec : ∀ (fuel : Nat) (r : Nat → TxResponse) (mr rc b : Nat),
    1 ≤ (attemptGo r mr fuel rc b).2.1 ∧
    (attemptGo r mr fuel rc b).2.2 =
      (List.range ((attemptGo r mr fuel rc b).2.1 - 1)).map (fun i => b * 2 ^ i) ∧
    (attemptGo r mr fuel rc b).2.1 ≤ max (mr + 1 - rc) 1 := by
  intro fuel
  induction fuel with
  | zero => intro r mr rc b; refine ⟨Nat.le_refl _, rfl, ?_⟩; simp [attemptGo]
  | succ f ih =>
    intro r mr rc b
    unfold attemptGo
    match hr : r rc with
    | .ok h => exact ⟨Nat.le_refl _, rfl, by simp⟩
    | .err m =>
      dsimp only
      by_cases hretry : isRetryableMsg m = true
      · rw [if_pos hretry]
        by_cases hrc : rc < mr
        · rw [if_pos hrc]
          rcases ih r mr (rc + 1) (b * 2) with ⟨ih1, ih2, ih3⟩
          dsimp only
          refine ⟨by omega, ?_, ?_⟩
          · have hsub : (attemptGo r mr f (rc + 1) (b * 2)).2.1 + 1 - 1 =
                ((attemptGo r mr f (rc + 1) (b * 2)).2.1 - 1) + 1 := by omega
            rw [hsub, List.range_succ_eq_map, List.map_cons]
            congr 1
            · simp
            · rw [ih2, List.map_map]
              refine List.map_congr_left ?_
              intro i _
              show b * 2 * 2 ^ i = b * 2 ^ (i + 1)
              rw [pow_succ]
              ring
          · have : max (mr + 1 - (rc + 1)) 1 ≤ mr - rc := by omega
            omega
        · rw [if_neg hrc]
          refine ⟨Nat.le_refl _, rfl, by simp⟩
      · rw [if_neg hretry]
        by_cases hnonce : jsIncludes m "nonce" = true
        · rw [if_pos hnonce]
          exact ⟨Nat.le_refl _, rfl, by simp⟩
        · rw [if_neg hnonce]
          exact ⟨Nat.le_refl _, rfl, by simp⟩

-- ==================== claim theorems ====================

/-- C1: in the revision of `AudioPlayer.processFrames` with the packet-loss
block, for every buffer state that passes the buffering gate, once the
contiguous drain loop has stopped, if the remaining buffer holds a sequence
strictly greater than the post-drain `expectedSequence` then the size of the
lost span up to the smallest such sequence is added to the frames-lost
counter and `expectedSequence` jumps to that sequence. -/
theorem claim_c1_gap_skip (s : PState) (n : Nat)
    (h0 : ¬(s.frameMap.length = 0))
    (hgate : ¬((highestSeq s : Int) - (bootSeq s : Int) + 1 <
      (jitterBufferFrames s.jitterBufferMs : Int)))
    (hmem : n ∈ keyList (drainLoop s.frameMap (bootSeq s) s.packetsPlayed).map)
    (hgt : (drainLoop s.frameMap (bootSeq s) s.packetsPlayed).expected < n)
    (hmin : ∀ k ∈ keyList (drainLoop s.frameMap (bootSeq s) s.packetsPlayed).map,
      (drainLoop s.frameMap (bootSeq s) s.packetsPlayed).expected < k → n ≤ k) :
    (processFramesLossy s).1.expectedSequence = n ∧
    (processFramesLossy s).1.packetsLost =
      s.packetsLost + (n - (drainLoop s.frameMap (bootSeq s) s.packetsPlayed).expected) := by
  have hfind : (sortedSeqList s.frameMap).find?
      (fun k => (drainLoop s.frameMap (bootSeq s) s.packetsPlayed).expected < k) = some n := by
    refine find?_sorted_least _ (sorted_sortedSeqList _) _ n ?_ hgt ?_
    · exact mem_sortedSeqList.2 ((drainLoop_keyList_mem _ _ _ n).1 hmem).1
    · intro k hk hek
      have hkm : k ∈ keyList s.frameMap := mem_sortedSeqList.1 hk
      refine hmin k ?_ hek
      exact (drainLoop_keyList_mem s.frameMap (bootSeq s) s.packetsPlayed k).2 ⟨hkm, by omega⟩
  unfold processFramesLossy
  rw [if_neg h0, if_neg hgate]
  dsimp only
  rw [hfind]
  exact ⟨rfl, rfl⟩

/-- C1 witness: the Scenario-A style state with frames 5, 6, 8, 9 buffered, a
3-frame gate (60 ms) and `expectedSequence = 5`: frames 5 and 6 drain, the
span of size 1 at sequence 7 is counted as lost and `expectedSequence` jumps
to 8. -/
theorem claim_c1_gap_skip_witness :
    (processFramesLossy (PState.mk [(5, List.replicate 160 0), (6, List.replicate 160 0), (8, List.replicate 160 0), (9, List.replicate 160 0)] 5 0 0 60 true)).1.expectedSequence = 8 ∧
    (processFramesLossy (PState.mk [(5, List.replicate 160 0), (6, List.replicate 160 0), (8, List.replicate 160 0), (9, List.replicate 160 0)] 5 0 0 60 true)).1.packetsLost = 1 := by
  have h := claim_c1_gap_skip
    (PState.mk [(5, List.replicate 160 0), (6, List.replicate 160 0), (8, List.replicate 160 0), (9, List.replicate 160 0)] 5 0 0 60 true)
    8 (by decide) (by decide) (by decide) (by decide) (by decide)
  refine ⟨h.1, ?_⟩
  rw [h.2]
  decide

/-- C2: over any playback session of `processBatch` deliveries, playback
ticks and jitter-buffer adjustments run from a fresh player, the sequence
numbers emitted to playback are pairwise strictly increasing (so no sequence
is emitted twice), and no single operation ever decreases
`expectedSequence`. -/
theorem claim_c2_ordered_emission :
    (∀ ops : List JOp, List.Pairwise (· < ·) (runOps ops).2) ∧
    (∀ (s : PState) (op : JOp), s.expectedSequence ≤ (stepOp s op).1.expectedSequence) := by
  constructor
  · intro ops
    have h := runOps_foldl_invariant ops startState [] List.Pairwise.nil
      (by intro x hx; cases hx)
    exact h.1
  · exact stepOp_expected_mono

/-- C3 counterexample: delivering the identical batch
`(seqStart = 100, count = 5, payload = 800 zero bytes)` twice to a fresh
player with the default 100 ms jitter buffer does not reproduce the state
after delivering it once: the single delivery drains and empties the buffer,
while the second delivery re-inserts all five already-played frames. -/
theorem claim_c3_counterexample :
    (runOps [JOp.deliverBatch 100 5 (List.replicate 800 0), JOp.deliverBatch 100 5 (List.replicate 800 0)]).1 ≠
      (runOps [JOp.deliverBatch 100 5 (List.replicate 800 0)]).1 ∧
    (runOps [JOp.deliverBatch 100 5 (List.replicate 800 0), JOp.deliverBatch 100 5 (List.replicate 800 0)]).1.frameMap.length = 5 ∧
    (runOps [JOp.deliverBatch 100 5 (List.replicate 800 0)]).1.frameMap.length = 0 :=
  ⟨by decide, by decide, by decide⟩

/-- C3 amended: the map-level insert of the jitter buffer is idempotent in
every state, and the concrete double delivery of
`(seqStart = 100, count = 3, payload = P)` on a fresh player with the default
configuration yields the same state as a single delivery, holding exactly the
3 frames 100, 101, 102 (the buffering gate blocks in between, so the
intervening drain removes nothing); double delivery of a whole `processBatch`
is idempotent only in that case, not after a drain released the frames. -/
theorem claim_c3_insert_idempotent :
    (∀ (m : FrameMap) (k : Nat) (v : Frame),
      insertIfAbsent (insertIfAbsent m k v) k v = insertIfAbsent m k v) ∧
    (runOps [JOp.deliverBatch 100 3 (List.replicate 480 0), JOp.deliverBatch 100 3 (List.replicate 480 0)]).1 =
      (runOps [JOp.deliverBatch 100 3 (List.replicate 480 0)]).1 ∧
    (runOps [JOp.deliverBatch 100 3 (List.replicate 480 0)]).1.frameMap.length = 3 :=
  ⟨insertIfAbsent_idem, by decide, by decide⟩

/-- C4: whenever the buffer is non-empty and
`highestBufferedSeq - expectedSequence + 1 < ceil(jitterBufferMs / 20)`, the
`processFrames` tick releases nothing: the frame map is untouched, the played
counter is unchanged and nothing is emitted to playback. -/
theorem claim_c4_buffering_gate (s : PState)
    (h0 : s.frameMap ≠ [])
    (hdepth : (highestSeq s : Int) - (s.expectedSequence : Int) + 1 <
      (jitterBufferFrames s.jitterBufferMs : Int)) :
    (processFrames s).1.frameMap = s.frameMap ∧
    (processFrames s).1.packetsPlayed = s.packetsPlayed ∧
    (processFrames s).2 = [] := by
  have h0' : ¬(s.frameMap.length = 0) := by
    intro h
    exact h0 (List.length_eq_zero.1 h)
  have hboot : (s.expectedSequence : Int) ≤ (bootSeq s : Int) := by
    exact_mod_cast bootSeq_ge s
  have hgate : (highestSeq s : Int) - (bootSeq s : Int) + 1 <
      (jitterBufferFrames s.jitterBufferMs : Int) := by omega
  unfold processFrames
  rw [if_neg h0', if_pos hgate]
  exact ⟨rfl, rfl, rfl⟩

/-- C4 witness: a single buffered frame at sequence 5 with
`expectedSequence = 5` and the default 5-frame gate is held back untouched. -/
theorem claim_c4_buffering_gate_witness :
    (processFrames (PState.mk [(5, List.replicate 160 0)] 5 0 0 100 true)).1.frameMap =
      (PState.mk [(5, List.replicate 160 0)] 5 0 0 100 true).frameMap ∧
    (processFrames (PState.mk [(5, List.replicate 160 0)] 5 0 0 100 true)).1.packetsPlayed =
      (PState.mk [(5, List.replicate 160 0)] 5 0 0 100 true).packetsPlayed ∧
    (processFrames (PState.mk [(5, List.replicate 160 0)] 5 0 0 100 true)).2 = [] :=
  claim_c4_buffering_gate _ (by decide) (by decide)

/-- C5 counterexample: after draining a bootstrapped stream up to
`expectedSequence = 1005` and then receiving a stale batch at sequence 1, the
buffer retains sequence 1 even though `1 < expectedSequence - 100 = 905`: the
eviction step is skipped because the buffering gate returns early, so the
claimed invariant fails after this sequence of operations. -/
theorem claim_c5_counterexample :
    hasKey (runOps [JOp.deliverBatch 1000 5 (List.replicate 800 0), JOp.deliverBatch 1 1 (List.replicate 160 0)]).1.frameMap 1 = true ∧
    (runOps [JOp.deliverBatch 1000 5 (List.replicate 800 0), JOp.deliverBatch 1 1 (List.replicate 160 0)]).1.expectedSequence = 1005 ∧
    1 + 100 < 1005 :=
  ⟨by decide, by decide, by decide⟩

/-- C5 amended: after any `processFrames` tick that reaches the eviction step
(the buffer was empty or the buffering gate was satisfied), no buffered
sequence is older than `expectedSequence - 100`; sequences outside the
retention window can survive only while the gate is blocking. -/
theorem claim_c5_retention_after_drain_tick (s : PState)
    (h : s.frameMap = [] ∨ ¬((highestSeq s : Int) - (bootSeq s : Int) + 1 <
      (jitterBufferFrames s.jitterBufferMs : Int))) :
    ∀ kv ∈ (processFrames s).1.frameMap, (processFrames s).1.expectedSequence ≤ kv.1 + 100 := by
  intro kv hkv
  by_cases h0 : s.frameMap.length = 0
  · unfold processFrames at hkv
    rw [if_pos h0] at hkv
    have : s.frameMap = [] := List.length_eq_zero.1 h0
    rw [this] at hkv
    cases hkv
  · have hg : ¬((highestSeq s : Int) - (bootSeq s : Int) + 1 <
        (jitterBufferFrames s.jitterBufferMs : Int)) := by
      rcases h with he | hg
      · exact absurd (by rw [he]; rfl) h0
      · exact hg
    unfold processFrames at hkv ⊢
    rw [if_neg h0, if_neg hg] at hkv ⊢
    dsimp only at hkv ⊢
    rcases evictOld_forward _ _ _ _ hkv with ⟨hmem2, hsnap⟩
    have hmem0 : kv ∈ s.frameMap := drainLoop_map_subset hmem2
    have hks : kv.1 ∈ sortedSeqList s.frameMap :=
      mem_sortedSeqList.2 (List.mem_map.2 ⟨kv, hmem0, rfl⟩)
    have hold := hsnap hks
    omega

/-- C5 amended witness: draining 200..204 past a stale frame at 150 leaves
`expectedSequence = 205` and the surviving frame satisfies the retention
bound `205 ≤ 150 + 100`. -/
theorem claim_c5_retention_after_drain_tick_witness :
    (processFrames (PState.mk [(150, List.replicate 160 0), (200, List.replicate 160 0), (201, List.replicate 160 0), (202, List.replicate 160 0), (203, List.replicate 160 0), (204, List.replicate 160 0)] 200 0 0 100 true)).1.expectedSequence ≤ 150 + 100 :=
  claim_c5_retention_after_drain_tick
    (PState.mk [(150, List.replicate 160 0), (200, List.replicate 160 0), (201, List.replicate 160 0), (202, List.replicate 160 0), (203, List.replicate 160 0), (204, List.replicate 160 0)] 200 0 0 100 true)
    (Or.inr (by decide)) (150, List.replicate 160 0) (by decide)

/-- C6: the channel guard of `Listener.handleAudioBatch` compares the
keccak-hashed channel key delivered by `listenToAudioBatches` (always a
66-character `0x`-hex string) with the raw human channel string the listener
subscribed with, so for the subscribed channel string `hello-megaeth`
(13 characters) every delivered batch is dropped without ever reaching
`processBatch` — the player state is returned unchanged and nothing is
emitted. -/
theorem claim_c6_channel_guard_drops (kec : String) (hk : kec.length = 66)
    (s : PState) (a c : Nat) (p : List Nat) :
    handleAudioBatch "hello-megaeth" kec s a c p = (s, []) := by
  have hne : kec ≠ "hello-megaeth" := by
    intro he
    rw [he] at hk
    exact absurd hk (by decide)
  unfold handleAudioBatch
  rw [if_pos hne]

/-- C6 witness: with a concrete 66-character delivered channel key and a
well-formed 3-frame batch for the subscribed channel, the handler drops the
batch and leaves the fresh player untouched. -/
theorem claim_c6_channel_guard_drops_witness :
    handleAudioBatch "hello-megaeth"
      "0x0000000000000000000000000000000000000000000000000000000000000000"
      startState 100 3 (List.replicate 480 0) = (startState, []) :=
  claim_c6_channel_guard_drops _ (by decide) _ _ _ _

/-- C7 counterexample: one session producing two frames (sequences 0 and 1)
leaves `sequence = 2`; `stop()` does not reset it, and the first frame of the
next session after `start()` carries sequence 2, not 0. -/
theorem claim_c7_counterexample :
    (encStop (encProcessChunks (encAddChunk (encStart encInit) (List.replicate 320 0)))).sequence = 2 ∧
    ((encProcessChunks (encAddChunk (encStart (encStop (encProcessChunks (encAddChunk (encStart encInit) (List.replicate 320 0))))) (List.replicate 160 0))).frameQueue.map Prod.fst) = [2] ∧
    (2 : Nat) ≠ 0 :=
  ⟨by decide, by decide, by decide⟩

/-- C7 amended: the `sequence` counter is 0 only from construction of the
`OpusEncoder`; neither `stop()` nor `start()` resets it, and
`processAudioChunks` only ever increases it, so numbering continues
monotonically across sessions of the same encoder instance. -/
theorem claim_c7_sequence_not_reset :
    encInit.sequence = 0 ∧
    (∀ s : EncState, (encStop s).sequence = s.sequence) ∧
    (∀ s : EncState, (encStart s).sequence = s.sequence) ∧
    (∀ s : EncState, s.sequence ≤ (encProcessChunks s).sequence) := by
  refine ⟨rfl, ?_, ?_, ?_⟩
  · intro s
    unfold encStop
    split <;> rfl
  · intro s
    unfold encStart
    split <;> rfl
  · intro s
    unfold encProcessChunks
    by_cases h1 : s.isRecording = false ∨ s.audioChunks = []
    · rw [if_pos h1]
    · rw [if_neg h1]
      dsimp only
      by_cases h2 : s.audioChunks.flatten.length = 0
      · rw [if_pos h2]
      · rw [if_neg h2]
        exact Nat.le_add_right _ _

/-- C8 counterexample: on a rate-limited first response that would succeed on
a retry, the live Submitter path (`sendAudioBatch` via
`realtime_sendRawTransaction`) makes exactly one attempt and surfaces the
wrapped error immediately, even though the error message is classified as
retryable and the deprecated retrying helper would have resolved it. -/
theorem claim_c8_counterexample :
    isRetryableMsg "429 rate limited" = true ∧
    sendAudioBatchLive (fun i => if i = 0 then TxResponse.err "429 rate limited" else TxResponse.ok 7) =
      (LiveOutcome.failedImmediately "Failed to send transaction via realtime API: 429 rate limited", 1) ∧
    (sendRawTransactionModel (fun i => if i = 0 then TxResponse.err "429 rate limited" else TxResponse.ok 7) 3).1 =
      SendOutcome.resolved 7 :=
  ⟨by decide, by decide, by decide⟩

/-- C8 amended: the retry policy lives in the deprecated `sendRawTransaction`
helper: it issues at most `maxRetries + 1` requests, waits exponentially
doubling delays `100 * 2 ^ i` before the retries, surfaces a first-response
nonce failure immediately after a single attempt with no retry, while the
live `sendAudioBatch` path always makes exactly one request and surfaces any
failure immediately. -/
theorem claim_c8_retry_policy :
    (∀ (r : Nat → TxResponse) (mr : Nat), (sendRawTransactionModel r mr).2.1 ≤ mr + 1) ∧
    (∀ (r : Nat → TxResponse) (mr : Nat), (sendRawTransactionModel r mr).2.2 =
      (List.range ((sendRawTransactionModel r mr).2.1 - 1)).map (fun i => 100 * 2 ^ i)) ∧
    (∀ (r : Nat → TxResponse) (mr : Nat) (m : String), r 0 = TxResponse.err m →
      isRetryableMsg m = false → jsIncludes m "nonce" = true →
      sendRawTransactionModel r mr = (SendOutcome.nonceError m, 1, [])) ∧
    (∀ r : Nat → TxResponse, (sendAudioBatchLive r).2 = 1) ∧
    (∀ (r : Nat → TxResponse) (m : String), r 0 = TxResponse.err m →
      sendAudioBatchLive r =
        (LiveOutcome.failedImmediately ("Failed to send transaction via realtime API: " ++ m), 1)) := by
  refine ⟨?_, ?_, ?_, ?_, ?_⟩
  · intro r mr
    have h := (attemptGo_spec (mr + 1) r mr 0 100).2.2
    have : max (mr + 1 - 0) 1 = mr + 1 := by omega
    unfold sendRawTransactionModel
    omega
  · intro r mr
    exact (attemptGo_spec (mr + 1) r mr 0 100).2.1
  · intro r mr m hr hretry hnonce
    unfold sendRawTransactionModel
    unfold attemptGo
    rw [hr]
    dsimp only
    rw [hretry]
    rw [if_neg (by decide : ¬(false = true)), if_pos hnonce]
  · intro r
    unfold sendAudioBatchLive
    cases hr : r 0 <;> rfl
  · intro r m hr
    unfold sendAudioBatchLive
    rw [hr]

/-- C8 amended witness: a permanent nonce failure is surfaced by the first
attempt with no retries and no delays, and a permanently rate-limited send is
bounded by 4 attempts at `maxRetries = 3`. -/
theorem claim_c8_retry_policy_witness :
    sendRawTransactionModel (fun _ => TxResponse.err "nonce too low") 3 =
      (SendOutcome.nonceError "nonce too low", 1, []) ∧
    (sendRawTransactionModel (fun _ => TxResponse.err "429") 3).2.1 ≤ 3 + 1 :=
  ⟨claim_c8_retry_policy.2.2.1 (fun _ => TxResponse.err "nonce too low") 3 "nonce too low"
      rfl (by decide) (by decide),
    claim_c8_retry_policy.1 (fun _ => TxResponse.err "429") 3⟩

/-- C9: the wire round-trip: ABI-encoding a batch with the sender encoder and
decoding the resulting event payload on the listener side (calldata decoding
by the contract, `Batch` event emission, and the hex-to-bytes conversion of
`processLog`) reproduces the original `seqStart` and the exact frame bytes,
for every 32-byte channel key, uint32 `seqStart` and byte payload. -/
theorem claim_c9_wire_roundtrip (ch : List Nat) (q : Nat) (fr : List Nat)
    (hch : ch.length = 64) (hq : q < 4294967296) (hfr : ∀ b ∈ fr, b < 256)
    (hflen : fr.length < 16 ^ 64) :
    calldataSeqStart (encodeABISendBatch ch q fr) = q ∧
    decodeEventPayload (encodeABISendBatch ch q fr) = fr := by
  have hq' : q < 16 ^ 64 := lt_of_lt_of_le hq (by norm_num)
  rcases encodeABISendBatch_parts ch q fr hch hq' hfr hflen with ⟨h1, _, h3⟩
  refine ⟨h1, ?_⟩
  unfold decodeEventPayload
  rw [h3, jsHexToBytes_eq_pairs]
  exact (bytesToHex_spec fr hfr).1

/-- C9 witness: a one-frame batch (count 1, 160 payload bytes of value 5) at
`seqStart = 7` on the all-zero channel key round-trips exactly. -/
theorem claim_c9_wire_roundtrip_witness :
    calldataSeqStart (encodeABISendBatch (List.replicate 64 0) 7 (List.replicate 160 5)) = 7 ∧
    decodeEventPayload (encodeABISendBatch (List.replicate 64 0) 7 (List.replicate 160 5)) =
      List.replicate 160 5 :=
  claim_c9_wire_roundtrip (List.replicate 64 0) 7 (List.replicate 160 5)
    (by decide) (by decide) (by decide) (by decide)

/-- C10: every byte array stored as a value in the jitter-buffer frame map
over any session of operations from a fresh player has length exactly 160:
the per-frame bounds check of `processBatch` never stores a partial trailing
frame, and the drain and eviction steps only remove entries. -/
theorem claim_c10_frame_size_invariant (ops : List JOp) :
    ∀ kv ∈ (runOps ops).1.frameMap, kv.2.length = 160 := by
  intro kv hkv
  unfold runOps at hkv
  exact runOps_foldl_frame_size ops startState [] (by intro kv' h; cases h) kv hkv

/-- C10 witness: the frame stored by a well-formed single-frame batch has
length 160. -/
theorem claim_c10_frame_size_invariant_witness :
    ((0 : Nat), (List.replicate 160 3 : Frame)).2.length = 160 :=
  claim_c10_frame_size_invariant [JOp.deliverBatch 0 1 (List.replicate 160 3)]
    (0, List.replicate 160 3) (by decide)

end MegaPhone
